import Mathlib

/-!
Verification development for the zaim_asset_tracker synchronization pipeline
(`main.py`, `analyze.py`).  Each definition below is a shallow embedding of one
function of the source; the theorems at the end of the file settle the frozen
behavioural claims about the pipeline.

Modelling conventions:
* pandas `DataFrame`s are lists of records (row order is the list order);
* parsed dates (`date_obj` after `pd.to_datetime(..., errors="coerce")`) are
  `Option Nat` — `none` is `NaT`, and the `Nat` is any order-faithful encoding
  of the calendar date (larger = later);
* machine text is `String` for fields that are only compared, `List Char`
  for fields processed character by character;
* fallible parsing returns `Option`.
-/

/-! ## 1. Config (main.py lines 27-43) -/

/-- Configuration record, mirroring the `Config` dataclass fields that the
run-abort logic reads (`main.py` lines 29-32).  An absent environment value is
modelled as the empty string (the dataclass defaults `ZAIM_EMAIL`, `ZAIM_PASS`
and `SPREADSHEET_KEY` to `""`; `JSON_KEYFILE` defaults to a non-empty path,
so `""` here models an explicitly empty setting). -/
structure Config where
  ZAIM_EMAIL : String
  ZAIM_PASS : String
  SPREADSHEET_KEY : String
  JSON_KEYFILE : String
deriving DecidableEq, Repr

/-- `Config.validate` (main.py lines 41-43):
`if not all([self.ZAIM_EMAIL, self.ZAIM_PASS, self.SPREADSHEET_KEY]): raise ValueError`.
Python string truthiness: a string is falsy exactly when empty.  Returns `true`
when no exception is raised.  Note the check reads only three of the four
settings; `JSON_KEYFILE` is not inspected. -/
def Config.validate (c : Config) : Bool :=
  !(c.ZAIM_EMAIL == "" || c.ZAIM_PASS == "" || c.SPREADSHEET_KEY == "")

/-- Side effects the run can perform against the outside world. -/
inductive Effect
  | browserStart
  | browserStop
  | storeRead
  | storeWrite
deriving DecidableEq, Repr

/-- `main()` (main.py lines 377-404): `config.validate()` runs first; a
`ValueError` is logged and the function returns, producing no side effect.
Only on success does `BrowserManager.__enter__` start the browser and the rest
of the pipeline run.  `rest` abstracts the trace of the remainder of a
successful run (login, scraping, the sheet read/write). -/
def mainRun (c : Config) (rest : List Effect) : List Effect :=
  if c.validate then Effect.browserStart :: rest else []

/-! ## 2. Amount normalization (main.py lines 292-294) -/

/-- `df["金額"].astype(str).str.replace("¥", "").str.replace(",", "")`:
`str.replace` removes every occurrence of the single character. -/
def stripAmount (s : List Char) : List Char :=
  (s.filter (fun c => !(c == '¥'))).filter (fun c => !(c == ','))

/-- Decimal value of a digit string. -/
def digitsToNat (ds : List Char) : Nat :=
  ds.foldl (fun n c => 10 * n + (c.toNat - '0'.toNat)) 0

/-- `pd.to_numeric(..., errors="coerce")` restricted to optional-sign decimal
integer literals; every other string (empty, stray characters) coerces to
`NaN`, modelled as `none`.  (`to_numeric` additionally accepts floating-point
literals and surrounding whitespace; those shapes never arise from the scraped
price texts and are outside this embedding.) -/
def toNumericInt : List Char → Option Int
  | [] => none
  | c :: cs =>
    if c == '-' then
      if !cs.isEmpty && cs.all Char.isDigit then some (-(digitsToNat cs : Int)) else none
    else if c == '+' then
      if !cs.isEmpty && cs.all Char.isDigit then some ((digitsToNat cs : Int)) else none
    else
      if (c :: cs).all Char.isDigit then some ((digitsToNat (c :: cs) : Int)) else none

/-- Full amount column transform (main.py lines 292-294): strip `¥` and `,`,
coerce to a number, `fillna(0)`. -/
def processAmount (s : List Char) : Int :=
  (toNumericInt (stripAmount s)).getD 0

/-! ## 3. Category cleanup (main.py lines 281-289) -/

/-- Character inside the class `\x00-\x7F` (code points 0 to 127). -/
def asciiCh (c : Char) : Bool :=
  decide (c.toNat ≤ 0x7F)

/-- `clean_cat` (main.py lines 283-287): `re.search(r"[^\x00-\x7F]+", text)`
finds the first character outside `\x00-\x7F`; on a match the text from that
character on is returned (`text[jp_match.start():]`), otherwise the text is
returned unchanged. -/
def cleanCat (s : List Char) : List Char :=
  if s.any (fun c => !(asciiCh c)) then s.dropWhile asciiCh else s

/-! ## 4. Direction and per-record normalization (main.py lines 254-315) -/

/-- Transaction direction: which of the `入金` / `出金` columns receives the
amount. -/
inductive Direction
  | Outflow
  | Inflow
deriving DecidableEq, Repr

/-- `mask_income = df["入金先"].notna() & (df["入金先"] != "")` (main.py line
304): a row is classified Inflow exactly when its destination-account value is
present (`notna`, i.e. `some _`) and non-empty; every other row is Outflow. -/
def directionOf (toText : Option String) : Direction :=
  match toText with
  | some s => if s == "" then Direction.Outflow else Direction.Inflow
  | none => Direction.Outflow

/-- One scraped row as stored by the scraper (main.py lines 236-245), plus the
`ScrapedYear` tag added in `fetch_data_loop` (line 149).  The account texts are
`Option String` because `img.get("alt")` yields `None` (pandas `NaN`) when the
`alt` attribute is missing, and `""` when the image element is absent. -/
structure RawRecord where
  zaim_id : String
  date_text : String
  cat_text : List Char
  amount_text : List Char
  from_text : Option String
  to_text : Option String
  place_text : String
  name_text : String
  scrapedYear : Nat
deriving DecidableEq, Repr

/-- One normalized record: the columns of `DataProcessor.process` output that
the verified claims read.  The date-derived columns (`date_obj`, `Year`,
`Month`, `YearMonth`) are row-local additions not referenced by any claim at
this stage (the upload step re-parses `date_obj` from text; see `SheetRow`)
and are omitted here. -/
structure CanonRecord where
  zaim_id : String
  category : List Char
  amount : Int
  inflowAmt : Int
  outflowAmt : Int
  from_text : Option String
  to_text : Option String
  place_text : String
  name_text : String
deriving DecidableEq, Repr

/-- Row-wise content of `DataProcessor.process` (main.py lines 256-315):
category cleanup, amount normalization, and the `入金`/`出金` split — both
columns start at 0 and the row's amount is copied into exactly one of them
according to `mask_income` (lines 298-310). -/
def processOne (r : RawRecord) : CanonRecord :=
  let amt := processAmount r.amount_text
  let dir := directionOf r.to_text
  { zaim_id := r.zaim_id
    category := cleanCat r.cat_text
    amount := amt
    inflowAmt := if dir == Direction.Inflow then amt else 0
    outflowAmt := if dir == Direction.Inflow then 0 else amt
    from_text := r.from_text
    to_text := r.to_text
    place_text := r.place_text
    name_text := r.name_text }

/-- `DataProcessor.process` (main.py lines 256-315): every transform is a
column assignment or row-wise `apply`; no row is filtered or dropped, so the
frame maps row by row. -/
def DataProcessor.process (l : List RawRecord) : List CanonRecord :=
  l.map processOne

/-! ## 5. Record extraction (main.py lines 193-250) -/

/-- One row-shaped DOM element (`div.SearchResult-module__body`) after the
field lookups of `_parse_current_view` (main.py lines 213-234): each field
holds the text the corresponding sub-element lookup produced, including the
documented defaults (`""` for missing divs, `"0"` for a missing price div,
`none` for a missing `alt` attribute).  `data_url` is the `data-url` attribute
of the first descendant carrying one (`row.find(attrs={"data-url": True})`),
or `none` when no such descendant exists. -/
structure DomRow where
  data_url : Option (List Char)
  date_text : String
  cat_text : List Char
  price_text : List Char
  from_text : Option String
  to_text : Option String
  place_text : String
  name_text : String
deriving DecidableEq, Repr

/-- `re.search(r"/money/(\d+)", u)` (main.py line 204): scan left to right for
the first position where the literal `/money/` is immediately followed by at
least one digit; the capture group is the maximal digit run there.  Positions
where `/money/` is not followed by a digit do not match and the scan
continues. -/
def searchMoneyId : List Char → Option (List Char)
  | [] => none
  | c :: cs =>
    let pat : List Char := ['/', 'm', 'o', 'n', 'e', 'y', '/']
    let rest := (c :: cs).drop 7
    if pat.isPrefixOf (c :: cs) && !(rest.takeWhile Char.isDigit).isEmpty then
      some (rest.takeWhile Char.isDigit)
    else
      searchMoneyId cs

/-- Identifier resolution for one row (main.py lines 201-206): `zaim_id` starts
as `""` and is set from the regex capture group when both the `data-url`
element and the match exist. -/
def rowId (row : DomRow) : String :=
  match row.data_url with
  | none => ""
  | some u =>
    match searchMoneyId u with
    | none => ""
    | some ds => String.mk ds

/-- The dict entry stored for a row (main.py lines 236-245), tagged with the
window's year context. -/
def mkRaw (year : Nat) (row : DomRow) : RawRecord :=
  { zaim_id := rowId row
    date_text := row.date_text
    cat_text := row.cat_text
    amount_text := row.price_text
    from_text := row.from_text
    to_text := row.to_text
    place_text := row.place_text
    name_text := row.name_text
    scrapedYear := year }

/-- `_parse_current_view` (main.py lines 199-245): walk the rows in document
order; a row whose id does not resolve (`if not zaim_id: continue`) is
skipped, a row whose id is already in `data_store` (`if zaim_id in data_store:
continue`) is skipped, and otherwise the row's record is inserted.  The store
is an insertion-ordered association list (Python dicts preserve insertion
order, and `_scrape_one_shot` reads `data_store.values()`). -/
def parseCurrentView (year : Nat) : List DomRow → List (String × RawRecord) → List (String × RawRecord)
  | [], store => store
  | row :: rest, store =>
    let zid := rowId row
    if zid == "" then
      parseCurrentView year rest store
    else if store.any (fun e => e.1 == zid) then
      parseCurrentView year rest store
    else
      parseCurrentView year rest (store ++ [(zid, mkRaw year row)])

/-! ## 6. Merge and upload (main.py lines 326-368) -/

/-- One row of the table handled by `SheetUploader.upload`: the merge logic
reads only `zaim_id` (as a string, after `astype(str)` on both sides) and the
re-parsed `date_obj`; every remaining column is carried opaquely in
`fields`. -/
structure SheetRow where
  zaim_id : String
  date_obj : Option Nat
  fields : List String
deriving DecidableEq, Repr

/-- Row order produced by `sort_values(by="date_obj", ascending=False)`
(main.py line 363) with the default `na_position="last"`: `a` may precede `b`
iff `a`'s date is at least `b`'s, with every `NaT` row after every dated
row. -/
def dateLe (a b : SheetRow) : Bool :=
  match a.date_obj, b.date_obj with
  | some x, some y => decide (y ≤ x)
  | some _, none => true
  | none, some _ => false
  | none, none => true

/-- `df.drop_duplicates(subset=["zaim_id"], keep="last")` (main.py line 352):
a row survives exactly when no later row carries the same `zaim_id`, and
surviving rows keep their relative order. -/
def dropDupKeepLast : List SheetRow → List SheetRow
  | [] => []
  | r :: rs =>
    if rs.any (fun s => s.zaim_id == r.zaim_id) then
      dropDupKeepLast rs
    else
      r :: dropDupKeepLast rs

/-- One admissible arrangement for `sort_values(by="date_obj",
ascending=False)` (main.py lines 361-364): dated rows descending, `NaT` rows
after all dated rows (default `na_position="last"`), here realised by a stable
merge sort.  The call's default `kind="quicksort"` is documented by pandas as
not stable, so the program pins down no particular tie order;
`SortValuesContract` below captures exactly what the call guarantees, and
every conclusion drawn through `sortByDateDesc` alone is invariant under the
choice of admissible arrangement (membership, per-id uniqueness and values). -/
def sortByDateDesc (l : List SheetRow) : List SheetRow :=
  l.mergeSort dateLe

/-- The pre-sort sequence of `SheetUploader.upload` (main.py lines 332-358).
`none` models a store whose `get_all_values()` is empty (not even a header
row): that branch takes `df_final = df_new.copy()` with no filtering and no
deduplication.  `some dfOld` models an existing table (the header row is
present, `dfOld` holds its data rows, possibly none): that branch concatenates
existing rows then new rows, drops rows with an empty `zaim_id`
(line 351), and deduplicates keeping the last occurrence (line 352). -/
def preMergeSeq : Option (List SheetRow) → List SheetRow → List SheetRow
  | none, dfNew => dfNew
  | some dfOld, dfNew =>
    dropDupKeepLast ((dfOld ++ dfNew).filter (fun r => r.zaim_id != ""))

/-- `SheetUploader.upload` (main.py lines 326-368) up to the final table that
is written back wholesale: merge, then sort by date descending. -/
def SheetUploader.upload (old : Option (List SheetRow)) (dfNew : List SheetRow) : List SheetRow :=
  sortByDateDesc (preMergeSeq old dfNew)

/-- Everything `sort_values(by="date_obj", ascending=False)` (main.py line
363) guarantees about its result under the pandas documentation: the output
is some arrangement of the input rows (a permutation) that is descending on
the date key with `NaT` rows last.  The default `kind="quicksort"` is
documented as not stable — only the `mergesort`/`stable` kinds are — so the
relative order of rows with equal dates is NOT part of the contract.
Tie-order-sensitive claims are settled against this contract: what holds for
every arrangement satisfying it is a program guarantee, and what fails for
some arrangement satisfying it is not. -/
def SortValuesContract (f : List SheetRow → List SheetRow) : Prop :=
  ∀ l : List SheetRow,
    (f l).Pairwise (fun a b => dateLe a b = true) ∧ List.Perm (f l) l

/-- `SheetUploader.upload` parameterized by the arrangement the sort call
happens to produce (main.py lines 326-368 with line 363 abstracted to any
`SortValuesContract` member). -/
def uploadWith (f : List SheetRow → List SheetRow)
    (old : Option (List SheetRow)) (dfNew : List SheetRow) : List SheetRow :=
  f (preMergeSeq old dfNew)

/-- A tie-reversing arrangement: stable-sorts the reversed input, so its
output is sorted with `NaT` last and is a permutation of the input — it
satisfies `SortValuesContract` — yet rows with equal dates come out in
reversed pre-sort order.  It exhibits that the sort contract pins down no tie
order. -/
def revTieSort (l : List SheetRow) : List SheetRow :=
  l.reverse.mergeSort dateLe

/-! ## 7. Insight analysis (analyze.py lines 26-95) -/

/-- One row of the analyzer input as read from the synchronized table: its
category, its `YearMonth` tag and its `出金` (outflow) value. -/
structure AnalyticsRow where
  category : List Char
  yearMonth : String
  outflow : ℚ
deriving DecidableEq, Repr

/-- One cell of `pivot_table(index="カテゴリ", columns="YearMonth",
values="出金", aggfunc="sum", fill_value=0)` (analyze.py line 53), together
with the `pivot[month] = 0` fallback for an absent month column (lines 56-61):
the summed outflow of a category in a month, 0 when no row matches. -/
def monthSum (rows : List AnalyticsRow) (cat : List Char) (m : String) : ℚ :=
  ((rows.filter (fun r => r.category == cat && r.yearMonth == m)).map
    (fun r => r.outflow)).sum

/-- `.round(1)` — round to one decimal place.  (numpy rounds half to even on
floats; the tie-breaking mode is irrelevant to the verified claim, which only
evaluates this at 0.) -/
def roundTo1 (x : ℚ) : ℚ :=
  ((round (x * 10) : ℤ) : ℚ) / 10

/-- `((増減額 / 前月) * 100).where(前月 > 0, 0).round(1)` (analyze.py lines
70-72): `Series.where(cond, other)` keeps the computed value where `cond`
holds and substitutes `other` elsewhere, so the quotient is used only where
the previous-month sum is strictly positive. -/
def increaseRate (cur prev : ℚ) : ℚ :=
  roundTo1 (if 0 < prev then (cur - prev) / prev * 100 else 0)

/-- The `増減率(%)` cell of `analyze_monthly_changes` for one category
(analyze.py lines 64-72). -/
def analyzeRate (rows : List AnalyticsRow) (cat : List Char) (target prevM : String) : ℚ :=
  increaseRate (monthSum rows cat target) (monthSum rows cat prevM)

/-! # Theorems -/

/-! ## Claim C4 — configuration validation -/

/-- C4 counterexample: the claim "if any of login email, login password, store
identifier, or credential-file path is absent, the run aborts before any side
effect" is false as stated — a configuration whose `JSON_KEYFILE` is empty but
whose other three settings are present passes `Config.validate`, so the run
proceeds to start the browser. -/
theorem config_validate_keyfile_cex :
    ¬ (∀ (c : Config) (rest : List Effect),
        (c.ZAIM_EMAIL = "" ∨ c.ZAIM_PASS = "" ∨ c.SPREADSHEET_KEY = "" ∨
          c.JSON_KEYFILE = "") →
        mainRun c rest = []) := by
  intro h
  have h2 := h ⟨"user@example.com", "pw", "key", ""⟩ [Effect.browserStop]
    (Or.inr (Or.inr (Or.inr rfl)))
  exact absurd h2 (by decide)

/-- C4 (amended): if the login email, the login password, or the store
identifier is absent, `Config.validate` raises and `main` returns before
performing any side effect; the credential-file path is not part of the
validated set. -/
theorem config_missing_aborts_run (c : Config) (rest : List Effect)
    (h : c.ZAIM_EMAIL = "" ∨ c.ZAIM_PASS = "" ∨ c.SPREADSHEET_KEY = "") :
    mainRun c rest = [] := by
  unfold mainRun Config.validate
  rcases h with h | h | h <;> simp [h]

/-- Witness for `config_missing_aborts_run` at a concrete configuration with
an absent login email. -/
theorem config_missing_aborts_run_witness :
    mainRun ⟨"", "pw", "key", "service_account.json"⟩ [Effect.browserStart] = [] :=
  config_missing_aborts_run ⟨"", "pw", "key", "service_account.json"⟩
    [Effect.browserStart] (Or.inl rfl)

/-! ## Claim C5 — amount non-negativity -/

/-- C5 counterexample: the claim "the canonical amount is non-negative for
every record, and 0 when unparseable" is false as stated — the code never
clamps the parsed value, so the amount text `-5` normalizes to `-5 < 0`. -/
theorem amount_nonneg_cex :
    ¬ (∀ s : List Char, 0 ≤ processAmount s ∧
        (toNumericInt (stripAmount s) = none → processAmount s = 0)) := by
  intro h
  exact absurd (h ['-', '5']).1 (by decide)

/-- C5 (amended): an unparseable amount text normalizes to 0, and the amount
is non-negative whenever the raw text carries no minus sign; a text with a
leading minus sign parses to its (possibly negative) signed value. -/
theorem amount_leniency_and_sign (s : List Char) :
    (toNumericInt (stripAmount s) = none → processAmount s = 0) ∧
    ('-' ∉ s → 0 ≤ processAmount s) := by
  constructor
  · intro h
    simp [processAmount, h]
  · intro hm
    have hm' : ('-' : Char) ∉ stripAmount s := by
      intro hx
      exact hm (List.mem_filter.mp (List.mem_filter.mp hx).1).1
    rcases hstrip : stripAmount s with _ | ⟨c, cs⟩
    · simp [processAmount, hstrip, toNumericInt]
    · have hc : (c == '-') = false := by
        rw [Bool.eq_false_iff]
        intro hb
        refine hm' ?_
        rw [hstrip]
        exact beq_iff_eq.mp hb ▸ List.mem_cons_self c cs
      simp only [processAmount, hstrip, toNumericInt, hc, Bool.false_eq_true, if_false]
      by_cases hp : (c == '+') = true
      · simp only [hp, if_true]
        by_cases hd : (!cs.isEmpty && cs.all Char.isDigit) = true
        · simp [hd, Int.natCast_nonneg]
        · simp [hd]
      · simp only [hp, Bool.false_eq_true, if_false]
        by_cases hd : ((c :: cs).all Char.isDigit) = true
        · simp [hd, Int.natCast_nonneg]
        · simp [hd]

/-- Witness for `amount_leniency_and_sign`: the stray text `abc` normalizes to
0, and the well-formed price text `¥1,234` normalizes to a non-negative
amount. -/
theorem amount_leniency_and_sign_witness :
    processAmount ['a', 'b', 'c'] = 0 ∧
    0 ≤ processAmount ['¥', '1', ',', '2', '3', '4'] :=
  ⟨(amount_leniency_and_sign ['a', 'b', 'c']).1 (by decide),
   (amount_leniency_and_sign ['¥', '1', ',', '2', '3', '4']).2 (by decide)⟩

/-! ## Claim C6 — direction -/

/-- C6: a record classifies as Inflow exactly when its destination-account
value is present and non-empty; the amount lands in the matching column; and
the direction is a function of the destination-account field alone. -/
theorem direction_dest_only (r : RawRecord) :
    (directionOf r.to_text = Direction.Inflow ↔
      ∃ s, r.to_text = some s ∧ s ≠ "") ∧
    ((processOne r).inflowAmt, (processOne r).outflowAmt) =
      (if directionOf r.to_text = Direction.Inflow then ((processOne r).amount, 0)
       else (0, (processOne r).amount)) ∧
    (∀ r' : RawRecord, r'.to_text = r.to_text →
      directionOf r'.to_text = directionOf r.to_text) := by
  refine ⟨?_, ?_, fun r' h => by rw [h]⟩
  · cases h : r.to_text with
    | none => simp [directionOf]
    | some s =>
      rcases eq_or_ne s "" with rfl | hs
      · simp [directionOf]
      · simp [directionOf, hs]
  · cases hd : directionOf r.to_text <;> simp [processOne, hd]

/-- Witness for `direction_dest_only` at a concrete record with a non-empty
destination account. -/
theorem direction_dest_only_witness :
    directionOf (some "wallet") = Direction.Inflow :=
  (direction_dest_only ⟨"1", "", [], [], none, some "wallet", "", "", 2024⟩).1.mpr
    ⟨"wallet", rfl, by decide⟩

/-! ## Claim C7 — normalizer leniency -/

/-- C7: normalization outputs one canonical record per raw record, and a
record whose amount text fails to parse is still present in the output with
amount 0. -/
theorem normalizer_leniency (l : List RawRecord) (r : RawRecord)
    (hmem : r ∈ l) (hfail : toNumericInt (stripAmount r.amount_text) = none) :
    (DataProcessor.process l).length = l.length ∧
    processOne r ∈ DataProcessor.process l ∧
    (processOne r).amount = 0 := by
  refine ⟨by simp [DataProcessor.process], List.mem_map_of_mem _ hmem, ?_⟩
  simp [processOne, processAmount, hfail]

/-- Witness for `normalizer_leniency` at a one-record batch whose amount text
is unparseable. -/
theorem normalizer_leniency_witness :
    (processOne ⟨"1", "", [], ['a'], none, none, "", "", 2024⟩).amount = 0 :=
  (normalizer_leniency [⟨"1", "", [], ['a'], none, none, "", "", 2024⟩]
    ⟨"1", "", [], ['a'], none, none, "", "", 2024⟩ (by decide) (by decide)).2.2

/-! ## Claim C9 — category cleanup -/

/-- C9: on a category text made of an ASCII part followed by a non-empty run
of non-ASCII characters, the cleanup returns exactly the substring starting at
the first non-ASCII character. -/
theorem category_cleanup_ascii (p r : List Char)
    (hp : ∀ c ∈ p, asciiCh c = true) (hr : ∀ c ∈ r, asciiCh c = false)
    (hne : r ≠ []) :
    cleanCat (p ++ r) = r := by
  obtain ⟨c0, r', rfl⟩ : ∃ c0 r', r = c0 :: r' := by
    cases r with
    | nil => exact absurd rfl hne
    | cons a l => exact ⟨a, l, rfl⟩
  have hany : (p ++ c0 :: r').any (fun c => !(asciiCh c)) = true := by
    refine List.any_eq_true.mpr ⟨c0, ?_, ?_⟩
    · exact List.mem_append_right p (List.mem_cons_self c0 r')
    · simp [hr c0 (List.mem_cons_self c0 r')]
  rw [cleanCat, if_pos hany, List.dropWhile_append]
  have hpnil : p.dropWhile asciiCh = [] :=
    List.dropWhile_eq_nil_iff.mpr hp
  simp [hpnil, List.dropWhile_cons, hr c0 (List.mem_cons_self c0 r')]

/-- Witness for `category_cleanup_ascii` at a concrete icon-prefixed category
text. -/
theorem category_cleanup_ascii_witness :
    cleanCat (['a'] ++ ['食', '費']) = ['食', '費'] :=
  category_cleanup_ascii ['a'] ['食', '費'] (by decide) (by decide) (by decide)

/-! ## Claim C10 — insight rate guard -/

/-- C10: in the month-over-month comparison, a category whose previous-month
summed outflow is not strictly positive reports an increase rate of exactly 0;
the quotient is only used where the previous-month sum is strictly
positive. -/
theorem insight_rate_zero (rows : List AnalyticsRow) (cat : List Char)
    (target prevM : String) (h : monthSum rows cat prevM ≤ 0) :
    analyzeRate rows cat target prevM = 0 := by
  unfold analyzeRate increaseRate
  rw [if_neg (not_lt.mpr h)]
  unfold roundTo1
  norm_num

/-- Witness for `insight_rate_zero` on an empty table (previous-month sum
0). -/
theorem insight_rate_zero_witness :
    analyzeRate [] [] "2024-05" "2024-04" = 0 :=
  insight_rate_zero [] [] "2024-05" "2024-04" (by simp [monthSum])

/-! ## Claim C8 — extraction pass invariants -/

/-- Helper: `find?` on a cons whose head satisfies the predicate, with the
predicate passed explicitly. -/
theorem find?_cons_true {α : Type _} (p : α → Bool) (a : α) (l : List α)
    (h : p a = true) :
    List.find? p (a :: l) = some a :=
  List.find?_cons_of_pos l h

/-- Helper: `find?` on a cons whose head fails the predicate, with the
predicate passed explicitly. -/
theorem find?_cons_false {α : Type _} (p : α → Bool) (a : α) (l : List α)
    (h : p a = false) :
    List.find? p (a :: l) = List.find? p l :=
  List.find?_cons_of_neg l (by simp [h])

/-- Every entry the extraction pass emits carries the non-empty id it was
stored under (`if not zaim_id: continue` discards unresolvable rows before
anything reaches the store). -/
theorem parseCurrentView_entries (year : Nat) (rows : List DomRow)
    (store : List (String × RawRecord))
    (h : ∀ e ∈ store, e.1 ≠ "" ∧ e.2.zaim_id = e.1) :
    ∀ e ∈ parseCurrentView year rows store, e.1 ≠ "" ∧ e.2.zaim_id = e.1 := by
  induction rows generalizing store with
  | nil => simpa [parseCurrentView] using h
  | cons row rest ih =>
    intro e he
    rw [parseCurrentView] at he
    split at he
    · exact ih store h e he
    · split at he
      · exact ih store h e he
      · rename_i hne _
        refine ih _ ?_ e he
        intro e' he'
        rcases List.mem_append.mp he' with hm | hm
        · exact h e' hm
        · rcases List.mem_singleton.mp hm with rfl
          refine ⟨?_, rfl⟩
          intro hcon
          apply hne
          have hcon' : rowId row = "" := hcon
          simp [hcon']

/-- The extraction pass never stores two entries under the same id. -/
theorem parseCurrentView_keys_nodup (year : Nat) (rows : List DomRow)
    (store : List (String × RawRecord))
    (h : (store.map Prod.fst).Nodup) :
    ((parseCurrentView year rows store).map Prod.fst).Nodup := by
  induction rows generalizing store with
  | nil => simpa [parseCurrentView] using h
  | cons row rest ih =>
    rw [parseCurrentView]
    split
    · exact ih store h
    · split
      · exact ih store h
      · rename_i hdup
        refine ih _ ?_
        rw [List.map_append, List.nodup_append]
        refine ⟨h, List.nodup_singleton _, ?_⟩
        intro a ha hb
        rcases List.mem_singleton.mp hb with rfl
        obtain ⟨e, he, heq⟩ := List.mem_map.mp ha
        exact hdup (List.any_eq_true.mpr ⟨e, he, by simp [heq]⟩)

/-- First-occurrence-wins: looking an id up in the pass output is looking it
up in the store, then finding the first DOM row that resolves to it. -/
theorem parseCurrentView_find (year : Nat) (rows : List DomRow)
    (store : List (String × RawRecord)) (z : String) (hz : z ≠ "") :
    (parseCurrentView year rows store).find? (fun e => e.1 == z) =
      (store.find? (fun e => e.1 == z)).or
        ((rows.find? (fun row => rowId row == z)).map (fun row => (z, mkRaw year row))) := by
  induction rows generalizing store with
  | nil => simp [parseCurrentView, Option.or_none]
  | cons row rest ih =>
    rw [parseCurrentView]
    split
    · rename_i hid
      rw [ih store]
      have hid' : rowId row = "" := by simpa using hid
      have hrz : (rowId row == z) = false := by
        simp [hid']
        exact fun hc => hz hc.symm
      rw [find?_cons_false (fun row => rowId row == z) row rest hrz]
    · split
      · rename_i hid hdup
        rw [ih store]
        by_cases hrz : (rowId row == z) = true
        · have hsome : (store.find? (fun e => e.1 == z)).isSome := by
            rw [List.find?_isSome]
            obtain ⟨e, he, heq⟩ := List.any_eq_true.mp hdup
            refine ⟨e, he, ?_⟩
            rw [beq_iff_eq] at heq ⊢
            rw [heq]
            exact beq_iff_eq.mp hrz
          obtain ⟨w, hw⟩ := Option.isSome_iff_exists.mp hsome
          rw [hw, Option.or_some, Option.or_some]
        · have hrz' : (rowId row == z) = false := by simpa using hrz
          rw [find?_cons_false (fun row => rowId row == z) row rest hrz']
      · rename_i hid hdup
        rw [ih]
        rw [List.find?_append]
        by_cases hrz : (rowId row == z) = true
        · have h1 : ([(rowId row, mkRaw year row)].find? (fun e => e.1 == z)) =
              some (rowId row, mkRaw year row) :=
            find?_cons_true (fun e => e.1 == z) (rowId row, mkRaw year row) [] hrz
          rw [h1, find?_cons_true (fun row => rowId row == z) row rest hrz]
          rw [Option.or_assoc]
          have hzz : rowId row = z := beq_iff_eq.mp hrz
          simp [hzz, Option.or_some]
        · have hrz' : (rowId row == z) = false := by simpa using hrz
          have h1 : ([(rowId row, mkRaw year row)].find? (fun e => e.1 == z)) = none :=
            find?_cons_false (fun e => e.1 == z) (rowId row, mkRaw year row) [] hrz'
          rw [h1, Option.or_none, find?_cons_false (fun row => rowId row == z) row rest hrz']

/-- C8: within one extraction pass, ids are pairwise distinct in the output,
every emitted record carries the non-empty id it is keyed by (rows with no
resolvable id contribute nothing), and the record stored for an id comes from
the first DOM row resolving to that id. -/
theorem extractor_first_wins (year : Nat) (rows : List DomRow) :
    ((parseCurrentView year rows []).map Prod.fst).Nodup ∧
    (∀ e ∈ parseCurrentView year rows [], e.1 ≠ "" ∧ e.2.zaim_id = e.1) ∧
    (∀ z : String, z ≠ "" →
      (parseCurrentView year rows []).find? (fun e => e.1 == z) =
        (rows.find? (fun row => rowId row == z)).map (fun row => (z, mkRaw year row))) := by
  refine ⟨parseCurrentView_keys_nodup year rows [] (by simp),
    parseCurrentView_entries year rows [] (by simp), ?_⟩
  intro z hz
  rw [parseCurrentView_find year rows [] z hz]
  simp [Option.none_or]

/-- Witness for `extractor_first_wins`: a pass over a duplicate id and an
unresolvable row keeps the first occurrence. -/
theorem extractor_first_wins_witness :
    (parseCurrentView 2024
        [⟨some "/money/123".data, "1月1日", [], ['1'], none, none, "", ""⟩,
         ⟨none, "1月2日", [], ['2'], none, none, "", ""⟩,
         ⟨some "/money/123".data, "1月3日", [], ['3'], none, none, "", ""⟩] []).find?
      (fun e => e.1 == "123") =
      (([⟨some "/money/123".data, "1月1日", [], ['1'], none, none, "", ""⟩,
         ⟨none, "1月2日", [], ['2'], none, none, "", ""⟩,
         ⟨some "/money/123".data, "1月3日", [], ['3'], none, none, "", ""⟩] :
          List DomRow).find? (fun row => rowId row == "123")).map
        (fun row => ("123", mkRaw 2024 row)) :=
  (extractor_first_wins 2024
    [⟨some "/money/123".data, "1月1日", [], ['1'], none, none, "", ""⟩,
     ⟨none, "1月2日", [], ['2'], none, none, "", ""⟩,
     ⟨some "/money/123".data, "1月3日", [], ['3'], none, none, "", ""⟩]).2.2 "123"
    (by decide)

/-! ## Merge-engine lemmas -/

/-- `dateLe` is transitive. -/
theorem dateLe_trans (a b c : SheetRow) (h1 : dateLe a b) (h2 : dateLe b c) :
    dateLe a c := by
  unfold dateLe at *
  cases ha : a.date_obj <;> cases hb : b.date_obj <;> cases hc : c.date_obj <;>
    simp_all <;> omega

/-- `dateLe` is total. -/
theorem dateLe_total (a b : SheetRow) : dateLe a b || dateLe b a := by
  unfold dateLe
  cases a.date_obj <;> cases b.date_obj <;> simp <;> omega

/-- Two rows related both ways by `dateLe` carry the same date. -/
theorem date_eq_of_dateLe_both (a b : SheetRow) (h1 : dateLe a b = true)
    (h2 : dateLe b a = true) : a.date_obj = b.date_obj := by
  unfold dateLe at *
  cases ha : a.date_obj <;> cases hb : b.date_obj <;> simp_all
  omega

/-- Rows with equal dates are `dateLe`-related. -/
theorem dateLe_of_date_eq (a b : SheetRow) (h : a.date_obj = b.date_obj) :
    dateLe a b = true := by
  unfold dateLe
  rw [h]
  cases b.date_obj <;> simp

/-- Deduplication only emits rows of its input. -/
theorem mem_of_mem_dropDup {r : SheetRow} {l : List SheetRow}
    (h : r ∈ dropDupKeepLast l) : r ∈ l := by
  induction l with
  | nil => simpa [dropDupKeepLast] using h
  | cons x xs ih =>
    rw [dropDupKeepLast] at h
    split at h
    · exact List.mem_cons_of_mem x (ih h)
    · rcases List.mem_cons.mp h with rfl | h'
      · exact List.mem_cons_self _ _
      · exact List.mem_cons_of_mem x (ih h')

/-- After deduplication the ids are pairwise distinct. -/
theorem dropDup_keys_nodup (l : List SheetRow) :
    ((dropDupKeepLast l).map (fun r => r.zaim_id)).Nodup := by
  induction l with
  | nil => simp [dropDupKeepLast]
  | cons x xs ih =>
    rw [dropDupKeepLast]
    split
    · exact ih
    · rename_i hany
      simp only [List.map_cons, List.nodup_cons]
      refine ⟨?_, ih⟩
      intro hmem
      obtain ⟨s, hs, hid⟩ := List.mem_map.mp hmem
      exact hany (List.any_eq_true.mpr ⟨s, mem_of_mem_dropDup hs, by simp [hid]⟩)

/-- A list whose ids are pairwise distinct is unchanged by deduplication. -/
theorem dropDup_eq_self (l : List SheetRow)
    (h : (l.map (fun r => r.zaim_id)).Nodup) : dropDupKeepLast l = l := by
  induction l with
  | nil => rfl
  | cons x xs ih =>
    rw [List.map_cons, List.nodup_cons] at h
    rw [dropDupKeepLast, if_neg, ih h.2]
    intro hany
    obtain ⟨s, hs, hid⟩ := List.any_eq_true.mp hany
    exact h.1 (List.mem_map.mpr ⟨s, hs, beq_iff_eq.mp hid⟩)

/-- Deduplicating a concatenation: rows of the first part whose id reappears
in the second part are dropped wholesale, and the second part is deduplicated
on its own. -/
theorem dropDup_append (xs ys : List SheetRow) :
    dropDupKeepLast (xs ++ ys) =
      (dropDupKeepLast xs).filter
        (fun x => !(ys.any (fun s => s.zaim_id == x.zaim_id))) ++
        dropDupKeepLast ys := by
  induction xs with
  | nil => simp [dropDupKeepLast]
  | cons x xs ih =>
    simp only [List.cons_append, dropDupKeepLast, List.append_eq, List.any_append]
    by_cases h1 : (xs.any (fun s => s.zaim_id == x.zaim_id)) = true
    · simp only [h1, Bool.true_or, if_true, ih]
    · simp only [h1, Bool.false_or, Bool.false_eq_true, if_false]
      by_cases h2 : (ys.any (fun s => s.zaim_id == x.zaim_id)) = true
      · simp only [h2, if_true, ih, Bool.false_eq_true, if_false]
        rw [List.filter_cons_of_neg (by simp [h2])]
      · simp only [h2, Bool.false_eq_true, if_false, ih]
        rw [List.filter_cons_of_pos (by simp [h2]), List.cons_append]

/-- Deduplication keeps, for each id present in the input, exactly the last
row carrying it. -/
theorem dropDup_find_last (l : List SheetRow) (z : String)
    (h : ∃ r ∈ l, r.zaim_id = z) :
    ∃ r, r ∈ dropDupKeepLast l ∧ r.zaim_id = z ∧
      l.reverse.find? (fun s => s.zaim_id == z) = some r ∧
      ∀ r' ∈ dropDupKeepLast l, r'.zaim_id = z → r' = r := by
  induction l with
  | nil => simp at h
  | cons x xs ih =>
    rw [List.reverse_cons, List.find?_append, dropDupKeepLast]
    by_cases hxz : x.zaim_id = z
    · by_cases hxs : ∃ r ∈ xs, r.zaim_id = z
      · obtain ⟨r, hr1, hr2, hr3, hr4⟩ := ih hxs
        have hany : xs.any (fun s => s.zaim_id == x.zaim_id) = true := by
          obtain ⟨w, hw1, hw2⟩ := hxs
          exact List.any_eq_true.mpr ⟨w, hw1, by simp [hw2, hxz]⟩
        rw [if_pos hany, hr3]
        exact ⟨r, hr1, hr2, rfl, hr4⟩
      · have hany : ¬ (xs.any (fun s => s.zaim_id == x.zaim_id) = true) := by
          intro hc
          obtain ⟨w, hw1, hw2⟩ := List.any_eq_true.mp hc
          exact hxs ⟨w, hw1, by rw [beq_iff_eq.mp hw2, hxz]⟩
        rw [if_neg hany]
        have hnone : xs.reverse.find? (fun s => s.zaim_id == z) = none := by
          rw [List.find?_eq_none]
          intro a ha hpa
          exact hxs ⟨a, List.mem_reverse.mp ha, beq_iff_eq.mp hpa⟩
        refine ⟨x, List.mem_cons_self _ _, hxz, ?_, ?_⟩
        · rw [hnone, Option.none_or,
            find?_cons_true (fun s => s.zaim_id == z) x [] (by simp [hxz])]
        · intro r' hr' hr'z
          rcases List.mem_cons.mp hr' with rfl | hmem
          · rfl
          · exact absurd ⟨r', mem_of_mem_dropDup hmem, hr'z⟩ hxs
    · have hxs : ∃ r ∈ xs, r.zaim_id = z := by
        obtain ⟨r, hr1, hr2⟩ := h
        rcases List.mem_cons.mp hr1 with rfl | hm
        · exact absurd hr2 hxz
        · exact ⟨r, hm, hr2⟩
      obtain ⟨r, hr1, hr2, hr3, hr4⟩ := ih hxs
      have hfind2 :
          (xs.reverse.find? (fun s => s.zaim_id == z)).or
            ([x].find? (fun s => s.zaim_id == z)) = some r := by
        rw [hr3, Option.or_some]
      by_cases hany : xs.any (fun s => s.zaim_id == x.zaim_id) = true
      · rw [if_pos hany]
        exact ⟨r, hr1, hr2, hfind2, hr4⟩
      · rw [if_neg hany]
        refine ⟨r, List.mem_cons_of_mem x hr1, hr2, hfind2, ?_⟩
        intro r' hr' hr'z
        rcases List.mem_cons.mp hr' with rfl | hmem
        · exact absurd hr'z hxz
        · exact hr4 r' hmem hr'z

/-- `find?` is blind to a filter the sought predicate already implies. -/
theorem find?_filter_imp (p q : SheetRow → Bool)
    (himp : ∀ x, p x = true → q x = true) (l : List SheetRow) :
    (l.filter q).find? p = l.find? p := by
  induction l with
  | nil => rfl
  | cons x xs ih =>
    by_cases hq : q x = true
    · rw [List.filter_cons_of_pos hq]
      by_cases hp : p x = true
      · rw [find?_cons_true p x (xs.filter q) hp, find?_cons_true p x xs hp]
      · have hp' : p x = false := by simpa using hp
        rw [find?_cons_false p x (xs.filter q) hp', find?_cons_false p x xs hp', ih]
    · have hp' : p x = false := by
        rcases hpx : p x with _ | _
        · rfl
        · exact absurd (himp x hpx) hq
      rw [List.filter_cons_of_neg hq, ih, find?_cons_false p x xs hp']

/-- Helper: `filter` keeps a head that satisfies the predicate, with the
predicate passed explicitly. -/
theorem filter_cons_true {α : Type _} (p : α → Bool) (a : α) (l : List α)
    (h : p a = true) :
    List.filter p (a :: l) = a :: List.filter p l :=
  List.filter_cons_of_pos h

/-- Helper: `filter` drops a head that fails the predicate, with the
predicate passed explicitly. -/
theorem filter_cons_false {α : Type _} (p : α → Bool) (a : α) (l : List α)
    (h : p a = false) :
    List.filter p (a :: l) = List.filter p l :=
  List.filter_cons_of_neg (by simp [h])

/-- A `dateLe`-sorted list is its dated rows followed by its dateless rows. -/
theorem sorted_null_split (l : List SheetRow)
    (h : l.Pairwise (fun a b => dateLe a b = true)) :
    l = l.filter (fun r => !(r.date_obj == none)) ++
      l.filter (fun r => r.date_obj == none) := by
  induction l with
  | nil => rfl
  | cons x xs ih =>
    by_cases hx : x.date_obj = none
    · have hall : ∀ r ∈ xs, r.date_obj = none := by
        intro r hr
        have hle := List.rel_of_pairwise_cons h hr
        unfold dateLe at hle
        rw [hx] at hle
        cases hr2 : r.date_obj with
        | none => rfl
        | some v => rw [hr2] at hle; simp at hle
      have h1 : xs.filter (fun r => !(r.date_obj == none)) = [] := by
        rw [List.filter_eq_nil_iff]
        intro a ha
        simp [hall a ha]
      have h2 : (x :: xs).filter (fun r => r.date_obj == none) = x :: xs := by
        rw [List.filter_eq_self]
        intro a ha
        rcases List.mem_cons.mp ha with rfl | hm
        · simp [hx]
        · simp [hall a hm]
      rw [filter_cons_false (fun r => !(r.date_obj == none)) x xs (by simp [hx]), h1, h2]
      rfl
    · have hx' : (x.date_obj == none) = false := by
        simp [hx]
      rw [filter_cons_true (fun r => !(r.date_obj == none)) x xs (by simp [hx']),
        filter_cons_false (fun r => r.date_obj == none) x xs hx', List.cons_append]
      exact congrArg (List.cons x) (ih (List.Pairwise.of_cons h))

/-! ## Claim C1 — dedup, latest wins -/

/-- C1: for an id present in both the existing table and the new batch, the
merged output contains exactly one record with that id, and it is (field by
field) the last occurrence of that id in the new batch — the merge
concatenates existing rows then new rows and keeps the last occurrence per
id. -/
theorem merge_dedup_latest_wins (dfOld dfNew : List SheetRow) (z : String)
    (hz : z ≠ "") (hold : ∃ r ∈ dfOld, r.zaim_id = z)
    (hnew : ∃ r ∈ dfNew, r.zaim_id = z) :
    ∃ r, r ∈ SheetUploader.upload (some dfOld) dfNew ∧ r.zaim_id = z ∧
      dfNew.reverse.find? (fun s => s.zaim_id == z) = some r ∧
      ∀ r' ∈ SheetUploader.upload (some dfOld) dfNew, r'.zaim_id = z → r' = r := by
  obtain ⟨rn, hrn, hrnz⟩ := hnew
  have hmemL : ∃ r ∈ (dfOld ++ dfNew).filter (fun r => r.zaim_id != ""), r.zaim_id = z :=
    ⟨rn, List.mem_filter.mpr ⟨List.mem_append_right _ hrn, by simp [hrnz, hz]⟩, hrnz⟩
  obtain ⟨r, hr1, hr2, hr3, hr4⟩ := dropDup_find_last _ z hmemL
  refine ⟨r, ?_, hr2, ?_, ?_⟩
  · simp only [SheetUploader.upload, preMergeSeq, sortByDateDesc]
    exact List.mem_mergeSort.mpr hr1
  · have hc1 := hr3
    rw [← List.filter_reverse] at hc1
    rw [find?_filter_imp (fun s => s.zaim_id == z) (fun r => r.zaim_id != "")
      (fun x hx => by simp [beq_iff_eq.mp hx, hz])] at hc1
    rw [List.reverse_append, List.find?_append] at hc1
    have hsome : (dfNew.reverse.find? (fun s => s.zaim_id == z)).isSome := by
      rw [List.find?_isSome]
      exact ⟨rn, List.mem_reverse.mpr hrn, by simp [hrnz]⟩
    obtain ⟨w, hw⟩ := Option.isSome_iff_exists.mp hsome
    rw [hw] at hc1
    rw [Option.or_some] at hc1
    rw [hw, hc1]
  · intro r' hr' hr'z
    refine hr4 r' ?_ hr'z
    simp only [SheetUploader.upload, preMergeSeq, sortByDateDesc] at hr'
    exact List.mem_mergeSort.mp hr'

/-- Witness for `merge_dedup_latest_wins`: id `100` is present in both sides;
the merged table carries the new batch's version. -/
theorem merge_dedup_latest_wins_witness :
    ∃ r, r ∈ SheetUploader.upload (some [⟨"100", some 1, ["old"]⟩])
        [⟨"100", some 2, ["new"]⟩, ⟨"101", some 3, ["x"]⟩] ∧ r.zaim_id = "100" ∧
      ([⟨"100", some 2, ["new"]⟩, ⟨"101", some 3, ["x"]⟩] :
          List SheetRow).reverse.find? (fun s => s.zaim_id == "100") = some r ∧
      ∀ r' ∈ SheetUploader.upload (some [⟨"100", some 1, ["old"]⟩])
          [⟨"100", some 2, ["new"]⟩, ⟨"101", some 3, ["x"]⟩],
        r'.zaim_id = "100" → r' = r :=
  merge_dedup_latest_wins [⟨"100", some 1, ["old"]⟩]
    [⟨"100", some 2, ["new"]⟩, ⟨"101", some 3, ["x"]⟩] "100" (by decide)
    ⟨⟨"100", some 1, ["old"]⟩, by decide, rfl⟩
    ⟨⟨"100", some 2, ["new"]⟩, by decide, rfl⟩


/-! ## Claim C2 — output ordering -/

/-- The stable arrangement satisfies the sort call's contract. -/
theorem sortByDateDesc_contract : SortValuesContract sortByDateDesc :=
  fun l => ⟨List.sorted_mergeSort dateLe_trans dateLe_total l,
    List.mergeSort_perm l dateLe⟩

/-- The tie-reversing arrangement also satisfies the sort call's contract: its
output is `dateLe`-sorted and a permutation of the input. -/
theorem revTieSort_contract : SortValuesContract revTieSort :=
  fun l => ⟨List.sorted_mergeSort dateLe_trans dateLe_total l.reverse,
    (List.mergeSort_perm l.reverse dateLe).trans (List.reverse_perm l)⟩

/-- C2 counterexample: the claim's stability part — rows comparing equal keep
their pre-sort relative order — is not a guarantee of the program.  The sort
call (`sort_values`, default `kind="quicksort"`, documented as not stable)
pins down only `SortValuesContract`; under the admissible arrangement
`revTieSort` and a merge input with three rows sharing one date, the per-date
subsequence of the output differs from the pre-sort sequence, refuting the
claim as stated for the guaranteed behaviour of the code. -/
theorem merge_ordering_stability_cex :
    ¬ (∀ f : List SheetRow → List SheetRow, SortValuesContract f →
        ∀ (old : Option (List SheetRow)) (dfNew : List SheetRow),
          (uploadWith f old dfNew).Pairwise (fun a b => dateLe a b = true) ∧
          uploadWith f old dfNew =
            (uploadWith f old dfNew).filter (fun r => !(r.date_obj == none)) ++
              (uploadWith f old dfNew).filter (fun r => r.date_obj == none) ∧
          ∀ d : Option Nat,
            (uploadWith f old dfNew).filter (fun r => r.date_obj == d) =
              (preMergeSeq old dfNew).filter (fun r => r.date_obj == d)) := by
  intro hclaim
  have h2 := (hclaim revTieSort revTieSort_contract
      (some [⟨"1", some 5, []⟩, ⟨"2", some 5, []⟩]) [⟨"3", some 5, []⟩]).2.2 (some 5)
  have e1 : uploadWith revTieSort
      (some [⟨"1", some 5, []⟩, ⟨"2", some 5, []⟩]) [⟨"3", some 5, []⟩] =
      List.mergeSort
        [⟨"3", some 5, []⟩, ⟨"2", some 5, []⟩, ⟨"1", some 5, []⟩] dateLe := rfl
  have e2 : List.mergeSort
      ([⟨"3", some 5, []⟩, ⟨"2", some 5, []⟩, ⟨"1", some 5, []⟩] : List SheetRow)
        dateLe =
      [⟨"3", some 5, []⟩, ⟨"2", some 5, []⟩, ⟨"1", some 5, []⟩] :=
    List.mergeSort_of_sorted (by decide)
  rw [e1, e2] at h2
  exact absurd h2 (by decide)

/-- C2 (amended): for every arrangement the sort call may produce under its
documented contract, the merged output is sorted by date descending, every
null-dated row is placed after all dated rows, and the output is a
permutation of the pre-sort sequence; the relative order of rows with equal
dates is unspecified (the default sort kind is not stable). -/
theorem merge_output_ordering_contract (f : List SheetRow → List SheetRow)
    (hf : SortValuesContract f) (old : Option (List SheetRow))
    (dfNew : List SheetRow) :
    (uploadWith f old dfNew).Pairwise (fun a b => dateLe a b = true) ∧
    uploadWith f old dfNew =
      (uploadWith f old dfNew).filter (fun r => !(r.date_obj == none)) ++
        (uploadWith f old dfNew).filter (fun r => r.date_obj == none) ∧
    List.Perm (uploadWith f old dfNew) (preMergeSeq old dfNew) := by
  obtain ⟨hs, hp⟩ := hf (preMergeSeq old dfNew)
  exact ⟨hs, sorted_null_split _ hs, hp⟩

/-- Witness for `merge_output_ordering_contract` at the stable arrangement
and a concrete merge of a dated row with a null-dated row. -/
theorem merge_output_ordering_contract_witness :
    (uploadWith sortByDateDesc (some [⟨"1", some 5, []⟩]) [⟨"2", none, []⟩]).Pairwise
      (fun a b => dateLe a b = true) ∧
    uploadWith sortByDateDesc (some [⟨"1", some 5, []⟩]) [⟨"2", none, []⟩] =
      (uploadWith sortByDateDesc (some [⟨"1", some 5, []⟩]) [⟨"2", none, []⟩]).filter
        (fun r => !(r.date_obj == none)) ++
        (uploadWith sortByDateDesc (some [⟨"1", some 5, []⟩]) [⟨"2", none, []⟩]).filter
          (fun r => r.date_obj == none) ∧
    List.Perm (uploadWith sortByDateDesc (some [⟨"1", some 5, []⟩]) [⟨"2", none, []⟩])
      (preMergeSeq (some [⟨"1", some 5, []⟩]) [⟨"2", none, []⟩]) :=
  merge_output_ordering_contract sortByDateDesc sortByDateDesc_contract
    (some [⟨"1", some 5, []⟩]) [⟨"2", none, []⟩]

/-! ## Claim C3 — idempotence -/

/-- C3 counterexample: sequence-level idempotence is not a guarantee of the
program.  Under the admissible arrangement `revTieSort` (the sort contract
pins down no tie order) and three rows sharing one date, merging the batch a
second time reorders the equal-date rows, so the twice-merged table differs
from the once-merged table as a sequence. -/
theorem merge_idempotent_cex :
    ¬ (∀ f : List SheetRow → List SheetRow, SortValuesContract f →
        ∀ dfOld dfNew : List SheetRow,
          uploadWith f (some (uploadWith f (some dfOld) dfNew)) dfNew =
            uploadWith f (some dfOld) dfNew) := by
  intro hclaim
  have h2 := hclaim revTieSort revTieSort_contract
      [⟨"1", some 5, []⟩, ⟨"2", some 5, []⟩] [⟨"3", some 5, []⟩]
  have e1 : uploadWith revTieSort
      (some [⟨"1", some 5, []⟩, ⟨"2", some 5, []⟩]) [⟨"3", some 5, []⟩] =
      [⟨"3", some 5, []⟩, ⟨"2", some 5, []⟩, ⟨"1", some 5, []⟩] := by
    rw [show uploadWith revTieSort
        (some [⟨"1", some 5, []⟩, ⟨"2", some 5, []⟩]) [⟨"3", some 5, []⟩] =
        List.mergeSort
          [⟨"3", some 5, []⟩, ⟨"2", some 5, []⟩, ⟨"1", some 5, []⟩] dateLe from rfl]
    exact List.mergeSort_of_sorted (by decide)
  rw [e1] at h2
  have e2 : uploadWith revTieSort
      (some [⟨"3", some 5, []⟩, ⟨"2", some 5, []⟩, ⟨"1", some 5, []⟩])
      [⟨"3", some 5, []⟩] =
      [⟨"3", some 5, []⟩, ⟨"1", some 5, []⟩, ⟨"2", some 5, []⟩] := by
    rw [show uploadWith revTieSort
        (some [⟨"3", some 5, []⟩, ⟨"2", some 5, []⟩, ⟨"1", some 5, []⟩])
        [⟨"3", some 5, []⟩] =
        List.mergeSort
          [⟨"3", some 5, []⟩, ⟨"1", some 5, []⟩, ⟨"2", some 5, []⟩] dateLe from rfl]
    exact List.mergeSort_of_sorted (by decide)
  rw [e2] at h2
  exact absurd h2 (by decide)

/-- C3 (amended): for every arrangement the sort call may produce under its
documented contract, merging the same batch twice yields a final table that
is a permutation of the once-merged table — the same records, each table
sorted by date descending; exact sequence equality is not guaranteed because
the tie order of the default sort kind is unspecified. -/
theorem merge_idempotent_upto_order (f : List SheetRow → List SheetRow)
    (hf : SortValuesContract f) (dfOld dfNew : List SheetRow) :
    List.Perm (uploadWith f (some (uploadWith f (some dfOld) dfNew)) dfNew)
      (uploadWith f (some dfOld) dfNew) ∧
    (uploadWith f (some (uploadWith f (some dfOld) dfNew)) dfNew).Pairwise
      (fun a b => dateLe a b = true) ∧
    (uploadWith f (some dfOld) dfNew).Pairwise (fun a b => dateLe a b = true) := by
  have hq1 : ∀ r ∈ dropDupKeepLast ((dfOld ++ dfNew).filter (fun r => r.zaim_id != "")),
      (r.zaim_id != "") = true :=
    fun r hr => (List.mem_filter.mp (mem_of_mem_dropDup hr)).2
  obtain ⟨hs1, hp1⟩ :=
    hf (dropDupKeepLast ((dfOld ++ dfNew).filter (fun r => r.zaim_id != "")))
  have hqF : ∀ r ∈ f (dropDupKeepLast ((dfOld ++ dfNew).filter
      (fun r => r.zaim_id != ""))), (r.zaim_id != "") = true :=
    fun r hr => hq1 r (hp1.mem_iff.mp hr)
  have hFfilter : (f (dropDupKeepLast ((dfOld ++ dfNew).filter
        (fun r => r.zaim_id != ""))) ++ dfNew).filter (fun r => r.zaim_id != "") =
      f (dropDupKeepLast ((dfOld ++ dfNew).filter (fun r => r.zaim_id != ""))) ++
        dfNew.filter (fun r => r.zaim_id != "") := by
    rw [List.filter_append, List.filter_eq_self.mpr hqF]
  have hkeysF : ((f (dropDupKeepLast ((dfOld ++ dfNew).filter
      (fun r => r.zaim_id != "")))).map (fun r => r.zaim_id)).Nodup :=
    ((hp1.map (fun r => r.zaim_id)).nodup_iff).mpr (dropDup_keys_nodup _)
  have hS1 : dropDupKeepLast ((dfOld ++ dfNew).filter (fun r => r.zaim_id != "")) =
      (dropDupKeepLast (dfOld.filter (fun r => r.zaim_id != ""))).filter
        (fun x => !((dfNew.filter (fun r => r.zaim_id != "")).any
          (fun s => s.zaim_id == x.zaim_id))) ++
        dropDupKeepLast (dfNew.filter (fun r => r.zaim_id != "")) := by
    rw [List.filter_append, dropDup_append]
  have hAfix : ((dropDupKeepLast (dfOld.filter (fun r => r.zaim_id != ""))).filter
      (fun x => !((dfNew.filter (fun r => r.zaim_id != "")).any
        (fun s => s.zaim_id == x.zaim_id)))).filter
      (fun x => !((dfNew.filter (fun r => r.zaim_id != "")).any
        (fun s => s.zaim_id == x.zaim_id))) =
      (dropDupKeepLast (dfOld.filter (fun r => r.zaim_id != ""))).filter
        (fun x => !((dfNew.filter (fun r => r.zaim_id != "")).any
          (fun s => s.zaim_id == x.zaim_id))) :=
    List.filter_eq_self.mpr (fun a ha => (List.mem_filter.mp ha).2)
  have hDnil : (dropDupKeepLast (dfNew.filter (fun r => r.zaim_id != ""))).filter
      (fun x => !((dfNew.filter (fun r => r.zaim_id != "")).any
        (fun s => s.zaim_id == x.zaim_id))) = [] := by
    refine List.filter_eq_nil_iff.mpr ?_
    intro a ha
    have hany : ((dfNew.filter (fun r => r.zaim_id != "")).any
        (fun s => s.zaim_id == a.zaim_id)) = true :=
      List.any_eq_true.mpr ⟨a, mem_of_mem_dropDup ha, by simp⟩
    simp [hany]
  have hS1f : (dropDupKeepLast ((dfOld ++ dfNew).filter
      (fun r => r.zaim_id != ""))).filter
      (fun x => !((dfNew.filter (fun r => r.zaim_id != "")).any
        (fun s => s.zaim_id == x.zaim_id))) =
      (dropDupKeepLast (dfOld.filter (fun r => r.zaim_id != ""))).filter
        (fun x => !((dfNew.filter (fun r => r.zaim_id != "")).any
          (fun s => s.zaim_id == x.zaim_id))) := by
    rw [hS1, List.filter_append, hAfix, hDnil, List.append_nil]
  have hPre2 : List.Perm (dropDupKeepLast
      ((f (dropDupKeepLast ((dfOld ++ dfNew).filter (fun r => r.zaim_id != ""))) ++
        dfNew).filter (fun r => r.zaim_id != "")))
      (dropDupKeepLast ((dfOld ++ dfNew).filter (fun r => r.zaim_id != ""))) := by
    rw [hFfilter, dropDup_append, dropDup_eq_self _ hkeysF]
    have hpf : List.Perm ((f (dropDupKeepLast ((dfOld ++ dfNew).filter
        (fun r => r.zaim_id != "")))).filter
        (fun x => !((dfNew.filter (fun r => r.zaim_id != "")).any
          (fun s => s.zaim_id == x.zaim_id))))
        ((dropDupKeepLast (dfOld.filter (fun r => r.zaim_id != ""))).filter
          (fun x => !((dfNew.filter (fun r => r.zaim_id != "")).any
            (fun s => s.zaim_id == x.zaim_id)))) := by
      have h6 := hp1.filter (fun x => !((dfNew.filter (fun r => r.zaim_id != "")).any
        (fun s => s.zaim_id == x.zaim_id)))
      rwa [hS1f] at h6
    exact ((hpf.append_right
      (dropDupKeepLast (dfNew.filter (fun r => r.zaim_id != "")))).trans
      (List.Perm.of_eq hS1.symm))
  obtain ⟨hs2, hp2⟩ := hf (dropDupKeepLast
      ((f (dropDupKeepLast ((dfOld ++ dfNew).filter (fun r => r.zaim_id != ""))) ++
        dfNew).filter (fun r => r.zaim_id != "")))
  refine ⟨?_, ?_, ?_⟩
  · exact hp2.trans (hPre2.trans hp1.symm)
  · exact hs2
  · exact hs1

/-- Witness for `merge_idempotent_upto_order` at the stable arrangement and a
concrete table and batch. -/
theorem merge_idempotent_upto_order_witness :
    List.Perm (uploadWith sortByDateDesc
        (some (uploadWith sortByDateDesc (some [⟨"1", some 5, []⟩]) [⟨"2", some 4, []⟩]))
        [⟨"2", some 4, []⟩])
      (uploadWith sortByDateDesc (some [⟨"1", some 5, []⟩]) [⟨"2", some 4, []⟩]) ∧
    (uploadWith sortByDateDesc
        (some (uploadWith sortByDateDesc (some [⟨"1", some 5, []⟩]) [⟨"2", some 4, []⟩]))
        [⟨"2", some 4, []⟩]).Pairwise (fun a b => dateLe a b = true) ∧
    (uploadWith sortByDateDesc (some [⟨"1", some 5, []⟩]) [⟨"2", some 4, []⟩]).Pairwise
      (fun a b => dateLe a b = true) :=
  merge_idempotent_upto_order sortByDateDesc sortByDateDesc_contract
    [⟨"1", some 5, []⟩] [⟨"2", some 4, []⟩]
